import Mathlib

/-!
Verification of the PPO sentiment-tuning notebook
(`nbs/04-gpt2-sentiment-ppo-training.ipynb`).

The notebook's own code (configuration dictionary, chunked sampling and
scoring loops, corpus preparation) is embedded directly.  Components of
the repository that the notebook imports (`trl.gpt2.respond_to_batch`,
`trl.ppo.PPOTrainer`, `trl.core.build_bert_batch_from_txt`) are not part
of the notebook source; where a property depends on them they are
modelled from the specification, and each such definition says so in its
doc comment.  Token sequences are lists of naturals, text is a list of
characters, and real-valued quantities are rationals.
-/

/-- Tokens are identifiers; we use naturals. -/
abbrev Token := Nat

/-- The chunked forward loop of the notebook's training cell:
`for i in range(int(batch_size/fbs)): g(xs[i*fbs:(i+1)*fbs])`, results
concatenated with `torch.cat`.  Note the chunk count is `B / F` with
integer (floor) division, exactly as `int(config['batch_size']/fbs)`
computes it. -/
def chunkLoop {α β : Type} (g : List α → List β) (B F : Nat) (xs : List α) : List β :=
  ((List.range (B / F)).map (fun i => g ((xs.drop (i * F)).take F))).flatten

/-- Modelled from the spec: the autoregressive generation loop inside
`trl.gpt2.respond_to_batch`, which is imported by the notebook but whose
source is not in the notebook.  The spec (§4.1): extend the prefix one
token at a time using the policy's sampled next-token distribution; the
sampler (one drawn token per prefix) is abstracted as `sample`. -/
def genLoop (sample : List Token → Token) (pre : List Token) : Nat → List Token
  | 0 => pre
  | n + 1 => genLoop sample (pre ++ [sample pre]) n

/-- Modelled from the spec: `trl.gpt2.respond_to_batch` for a single
prompt — run the generation loop for exactly `txtLen` steps with no
early-termination condition, and return only the generated continuation
(the source returns `input_ids[:, -txt_len:]`). -/
def respond_to_batch (sample : List Token → Token) (query : List Token) (txtLen : Nat) : List Token :=
  (genLoop sample query txtLen).drop query.length

/-- The sentiment reward channel of the notebook: from the scorer's
output logits, take index 1 (`[0][:, 1]`), the positive class. -/
def posLogit (score : List Char → List ℚ) (t : List Char) : ℚ :=
  (score t).getD 1 0

/-- `texts = [q + r for q, r in zip(queries, responses)]` from the
notebook's scoring cell. -/
def rolloutTexts (queries responses : List (List Char)) : List (List Char) :=
  List.zipWith (· ++ ·) queries responses

/-- The notebook's chunked sentiment pass: the positive logit of each
text, computed in `B / F` chunks of size `F` and concatenated. -/
def sentimentRewards (score : List Char → List ℚ) (B F : Nat) (texts : List (List Char)) : List ℚ :=
  chunkLoop (List.map (posLogit score)) B F texts

/-- The numeric configuration surface of the notebook's `config`
dictionary (cell "Configuration"); model-name strings are external and
omitted. -/
structure PPOConfig where
  steps : Nat
  batch_size : Nat
  forward_batch_size : Nat
  ppo_epochs : Nat
  txt_in_len : Nat
  txt_out_len : Nat
  lr : ℚ
  init_kl_coef : ℚ
  target : ℚ
  horizon : ℚ
  gamma : ℚ
  lam : ℚ
  cliprange : ℚ
  cliprange_value : ℚ
  vf_coef : ℚ

/-- The literal numeric values of the notebook's `config` cell. -/
def notebookConfig : PPOConfig :=
  { steps := 25600, batch_size := 256, forward_batch_size := 16, ppo_epochs := 4,
    txt_in_len := 5, txt_out_len := 15, lr := 141 / 10000000, init_kl_coef := 2 / 10,
    target := 6, horizon := 10000, gamma := 1, lam := 95 / 100,
    cliprange := 2 / 10, cliprange_value := 2 / 10, vf_coef := 1 / 10 }

/-- The list comprehension `[xs[i] for i in range(n)]`: Python integer
indexing raises `IndexError` as soon as `i` reaches `xs.length`, so the
comprehension yields the first `n` elements when `n ≤ xs.length` and
fails otherwise. -/
def pyIndexRange {α : Type} (xs : List α) (n : Nat) : Except String (List α) :=
  if n ≤ xs.length then Except.ok (xs.take n) else Except.error "IndexError"

/-- One training round of the notebook loop, up to the point where the
(query, response, reward) triplet is handed to `ppo_trainer.step`
(whose source, `trl.ppo`, is not in the notebook): the chunked response
sampling loop; the response-decoding comprehension
`[gpt2_tokenizer.decode(response_tensors[i, :]) for i in
range(config['batch_size'])]`, which integer-indexes the sampled rows
for every `i < batch_size` and raises `IndexError` when the sampling
loop produced fewer rows; then text joining and the chunked sentiment
scoring.  An `IndexError` aborts the round before scoring.  The
notebook performs no configuration validation before or inside this
round.  The per-prompt generation and per-text scoring are the
elementwise models above. -/
def notebookRound (cfg : PPOConfig) (sample : List Token → Token)
    (decode : List Token → List Char) (score : List Char → List ℚ)
    (queries : List (List Token)) : Except String (List (List Token) × List ℚ) :=
  let response_tensors := chunkLoop
    (List.map (fun q => respond_to_batch sample q cfg.txt_out_len))
    cfg.batch_size cfg.forward_batch_size queries
  Except.map
    (fun rows =>
      let texts := rolloutTexts (queries.map decode) ((rows.map decode))
      (rows, sentimentRewards score cfg.batch_size cfg.forward_batch_size texts))
    (pyIndexRange response_tensors cfg.batch_size)

/-- Concatenating the `k` consecutive slices `xs[i*F : i*F+F]`, `i < k`,
recovers the first `k*F` elements of `xs`. -/
theorem chunk_concat {α : Type} (F : Nat) :
    ∀ (k : Nat) (xs : List α),
      ((List.range k).map (fun i => (xs.drop (i * F)).take F)).flatten = xs.take (k * F) := by
  intro k
  induction k with
  | zero => intro xs; simp
  | succ k ih =>
    intro xs
    rw [List.range_succ_eq_map]
    simp only [List.map_cons, List.map_map, List.flatten_cons, Nat.zero_mul, List.drop_zero]
    have hshift : ((List.range k).map ((fun i => (xs.drop (i * F)).take F) ∘ (· + 1)))
        = (List.range k).map (fun i => ((xs.drop F).drop (i * F)).take F) := by
      apply List.map_congr_left
      intro i _
      show (xs.drop ((i + 1) * F)).take F = ((xs.drop F).drop (i * F)).take F
      rw [List.drop_drop]
      congr 2
      ring
    rw [hshift, ih (xs.drop F)]
    have hmul : (k + 1) * F = F + k * F := by ring
    rw [hmul, List.take_add]

/-- The chunked loop applied to an elementwise batch function equals the
elementwise function mapped over the first `(B / F) * F` inputs: exactly
`⌊B/F⌋` chunks are processed and any remainder is never touched. -/
theorem chunkLoop_map_eq {α β : Type} (f : α → β) (B F : Nat) (xs : List α) :
    chunkLoop (List.map f) B F xs = (xs.take (B / F * F)).map f := by
  unfold chunkLoop
  rw [show ((List.range (B / F)).map fun i => List.map f ((xs.drop (i * F)).take F))
      = ((List.range (B / F)).map (fun i => (xs.drop (i * F)).take F)).map (List.map f)
    from (List.map_map _ _ _).symm]
  rw [← List.map_flatten, chunk_concat]

/-- When `F` divides `B` and there are exactly `B` inputs, the chunked
loop over an elementwise batch function processes every input once, in
order. -/
theorem chunkLoop_map_dvd {α β : Type} (f : α → β) (B F : Nat) (xs : List α)
    (hF : F ∣ B) (hx : xs.length = B) :
    chunkLoop (List.map f) B F xs = xs.map f := by
  rw [chunkLoop_map_eq, Nat.div_mul_cancel hF, ← hx, List.take_length]

/-- Each generation step adds exactly one token to the running prefix. -/
theorem genLoop_length (sample : List Token → Token) :
    ∀ (n : Nat) (pre : List Token), (genLoop sample pre n).length = pre.length + n := by
  intro n
  induction n with
  | zero => intro pre; rfl
  | succ n ih =>
    intro pre
    rw [genLoop, ih]
    simp
    omega

/-- C5: every generated Response has exactly `txt_out_len` tokens — the
generation loop runs for exactly `txtLen` steps, one sampled token per
step, and has no early-termination path, whatever tokens the sampler
produces for whatever prompt. -/
theorem respond_to_batch_length (sample : List Token → Token) (query : List Token) (L : Nat) :
    (respond_to_batch sample query L).length = L := by
  unfold respond_to_batch
  rw [List.length_drop, genLoop_length]
  omega

/-- C1 counterexample: with B = 5 prompts and sub-batch limit F = 2, the
notebook's chunk loop (`range(int(5/2))` = 2 chunks) produces only 4
responses, not one per prompt, and processes 2 chunks, not ⌈5/2⌉ = 3:
the short final chunk is dropped, not processed. -/
theorem sampler_short_chunk_cex :
    (chunkLoop (List.map (fun q => respond_to_batch (fun _ => 0) q 1)) 5 2
        [[0], [1], [2], [3], [4]]).length ≠ 5
      ∧ (List.range (5 / 2)).length ≠ 3 := by
  decide

/-- C1 amended: the loop processes ⌊B/F⌋ consecutive chunks of size F in
original order; the responses are exactly those of the first ⌊B/F⌋·F
prompts, so when F divides B there is exactly one Response per Prompt,
and otherwise the trailing `B mod F` prompts are silently dropped. -/
theorem sampler_chunking (sample : List Token → Token) (L B F : Nat)
    (xs : List (List Token)) (hx : xs.length = B) :
    chunkLoop (List.map (fun q => respond_to_batch sample q L)) B F xs
        = (xs.take (B / F * F)).map (fun q => respond_to_batch sample q L)
      ∧ (F ∣ B →
        chunkLoop (List.map (fun q => respond_to_batch sample q L)) B F xs
          = xs.map (fun q => respond_to_batch sample q L)) :=
  ⟨chunkLoop_map_eq _ B F xs, fun hF => chunkLoop_map_dvd _ B F xs hF hx⟩

/-- Witness for `sampler_chunking` at B = 5, F = 2, a constant sampler
and one-token responses. -/
theorem sampler_chunking_witness :
    ([[0], [1], [2], [3], [4]] : List (List Token)).length = 5
      ∧ (chunkLoop (List.map (fun q => respond_to_batch (fun _ => 0) q 1)) 5 2
            [[0], [1], [2], [3], [4]]
          = ([[0], [1], [2], [3], [4]].take (5 / 2 * 2)).map
              (fun q => respond_to_batch (fun _ => 0) q 1)
        ∧ (2 ∣ 5 →
          chunkLoop (List.map (fun q => respond_to_batch (fun _ => 0) q 1)) 5 2
              [[0], [1], [2], [3], [4]]
            = [[0], [1], [2], [3], [4]].map (fun q => respond_to_batch (fun _ => 0) q 1))) :=
  ⟨rfl, sampler_chunking (fun _ => 0) 1 5 2 [[0], [1], [2], [3], [4]] rfl⟩

/-- C4: when F divides B, the chunked sampling pass and the chunked
scoring pass each equal the whole-batch (elementwise) pass, and the
element at index i of the reassembled responses (resp. rewards)
corresponds to prompt (resp. text) i. -/
theorem chunk_whole_batch_agree (sample : List Token → Token) (L : Nat)
    (score : List Char → List ℚ) (B F : Nat)
    (qs : List (List Token)) (ts : List (List Char))
    (hF : F ∣ B) (hq : qs.length = B) (ht : ts.length = B) :
    chunkLoop (List.map (fun q => respond_to_batch sample q L)) B F qs
        = qs.map (fun q => respond_to_batch sample q L)
      ∧ chunkLoop (List.map (posLogit score)) B F ts = ts.map (posLogit score)
      ∧ (∀ i, i < B →
        (chunkLoop (List.map (fun q => respond_to_batch sample q L)) B F qs).getD i []
          = respond_to_batch sample (qs.getD i []) L)
      ∧ (∀ i, i < B →
        (chunkLoop (List.map (posLogit score)) B F ts).getD i 0
          = posLogit score (ts.getD i [])) := by
  refine ⟨chunkLoop_map_dvd _ B F qs hF hq, chunkLoop_map_dvd _ B F ts hF ht, ?_, ?_⟩
  · intro i hi
    have hi' : i < qs.length := hq ▸ hi
    rw [chunkLoop_map_dvd _ B F qs hF hq,
      List.getD_eq_getElem _ _ (by simpa using hi'), List.getElem_map,
      List.getD_eq_getElem _ _ hi']
  · intro i hi
    have hi' : i < ts.length := ht ▸ hi
    rw [chunkLoop_map_dvd _ B F ts hF ht,
      List.getD_eq_getElem _ _ (by simpa using hi'), List.getElem_map,
      List.getD_eq_getElem _ _ hi']

/-- Witness for `chunk_whole_batch_agree` at B = 2, F = 1. -/
theorem chunk_whole_batch_agree_witness :
    (1 ∣ 2 ∧ ([[0], [1]] : List (List Token)).length = 2
        ∧ ([['a'], ['b']] : List (List Char)).length = 2)
      ∧ (chunkLoop (List.map (fun q => respond_to_batch (fun _ => 0) q 1)) 2 1 [[0], [1]]
          = [[0], [1]].map (fun q => respond_to_batch (fun _ => 0) q 1)
        ∧ chunkLoop (List.map (posLogit (fun _ => [3, 7]))) 2 1 [['a'], ['b']]
          = [['a'], ['b']].map (posLogit (fun _ => [3, 7]))
        ∧ (∀ i, i < 2 →
          (chunkLoop (List.map (fun q => respond_to_batch (fun _ => 0) q 1)) 2 1
              [[0], [1]]).getD i []
            = respond_to_batch (fun _ => 0) ([[0], [1]].getD i []) 1)
        ∧ (∀ i, i < 2 →
          (chunkLoop (List.map (posLogit (fun _ => [3, 7]))) 2 1 [['a'], ['b']]).getD i 0
            = posLogit (fun _ => [3, 7]) ([['a'], ['b']].getD i []))) :=
  ⟨⟨⟨2, rfl⟩, rfl, rfl⟩,
    chunk_whole_batch_agree (fun _ => 0) 1 (fun _ => [3, 7]) 2 1 [[0], [1]] [['a'], ['b']]
      ⟨2, rfl⟩ rfl rfl⟩

/-- C3: for every Rollout index i, the reward produced by the chunked
sentiment pass is exactly the positive-class channel (index 1 of the
scorer's output logits) of the concatenation of query text i and
response text i, with no further transformation. -/
theorem reward_is_pos_logit (score : List Char → List ℚ) (B F : Nat)
    (qs rs : List (List Char)) (hF : F ∣ B) (hq : qs.length = B) (hr : rs.length = B)
    (i : Nat) (hi : i < B) :
    (sentimentRewards score B F (rolloutTexts qs rs)).getD i 0
      = posLogit score (qs.getD i [] ++ rs.getD i []) := by
  have hlen : (rolloutTexts qs rs).length = B := by
    simp [rolloutTexts, hq, hr]
  have hi' : i < (rolloutTexts qs rs).length := hlen ▸ hi
  unfold sentimentRewards
  rw [chunkLoop_map_dvd _ B F _ hF hlen,
    List.getD_eq_getElem _ _ (by simpa using hi'), List.getElem_map]
  have hq' : i < qs.length := hq ▸ hi
  have hr' : i < rs.length := hr ▸ hi
  rw [List.getD_eq_getElem _ _ hq', List.getD_eq_getElem _ _ hr']
  congr 1
  simp [rolloutTexts]

/-- Witness for `reward_is_pos_logit` at B = 1, F = 1, i = 0. -/
theorem reward_is_pos_logit_witness :
    (1 ∣ 1 ∧ ([['a']] : List (List Char)).length = 1
        ∧ ([['b']] : List (List Char)).length = 1 ∧ 0 < 1)
      ∧ (sentimentRewards (fun _ => [3, 7]) 1 1 (rolloutTexts [['a']] [['b']])).getD 0 0
          = posLogit (fun _ => [3, 7]) (([['a']] : List (List Char)).getD 0 []
              ++ ([['b']] : List (List Char)).getD 0 []) :=
  ⟨⟨⟨1, rfl⟩, rfl, rfl, Nat.zero_lt_one⟩,
    reward_is_pos_logit (fun _ => [3, 7]) 1 1 [['a']] [['b']] ⟨1, rfl⟩ rfl rfl 0
      Nat.zero_lt_one⟩

/-- A configuration violating every condition named in §7: `batch_size`
(5) is not a multiple of `forward_batch_size` (2), and both text lengths
are non-positive (0). -/
def malformedConfig : PPOConfig :=
  { notebookConfig with
    batch_size := 5
    forward_batch_size := 2
    txt_in_len := 0
    txt_out_len := 0 }

/-- C2 counterexample: under the malformed configuration no fatal
configuration error is reported before the round — the round starts,
its sampling pass runs to completion (producing 4 response rows for the
5 prompts), and only then does the round die with an `IndexError` from
the response-decoding comprehension.  The notebook contains no
validation of `batch_size`, `forward_batch_size`, `txt_in_len` or
`txt_out_len` anywhere. -/
theorem no_config_validation_cex :
    notebookRound malformedConfig (fun _ => 0) (fun _ => []) (fun _ => [5, 9])
        [[], [], [], [], []]
      = Except.error "IndexError"
    ∧ (chunkLoop
        (List.map (fun q => respond_to_batch (fun _ => 0) q malformedConfig.txt_out_len))
        malformedConfig.batch_size malformedConfig.forward_batch_size
        [[], [], [], [], []]).length = 4 := by
  constructor <;> rfl

/-- C2 amended: the notebook validates nothing up front; a round fails
exactly when the sampling loop produced fewer response rows than
`batch_size` (the `IndexError` of the decode comprehension, raised
after sampling and before scoring), and under a well-formed
configuration — `forward_batch_size` dividing `batch_size`, one query
per batch slot — the round never fails, whatever the text lengths. -/
theorem round_fails_iff (cfg : PPOConfig) (sample : List Token → Token)
    (decode : List Token → List Char) (score : List Char → List ℚ)
    (queries : List (List Token)) :
    (notebookRound cfg sample decode score queries = Except.error "IndexError"
      ↔ (chunkLoop (List.map (fun q => respond_to_batch sample q cfg.txt_out_len))
            cfg.batch_size cfg.forward_batch_size queries).length < cfg.batch_size)
      ∧ (cfg.forward_batch_size ∣ cfg.batch_size → queries.length = cfg.batch_size →
          ∃ out, notebookRound cfg sample decode score queries = Except.ok out) := by
  constructor
  · unfold notebookRound pyIndexRange
    dsimp only
    split_ifs with h
    · simp only [Except.map]
      constructor
      · intro hcontra
        exact absurd hcontra (by simp)
      · intro hlt
        omega
    · simp only [Except.map]
      constructor
      · intro _
        omega
      · intro _
        trivial
  · intro hF hq
    have hlen : (chunkLoop (List.map (fun q => respond_to_batch sample q cfg.txt_out_len))
        cfg.batch_size cfg.forward_batch_size queries).length = cfg.batch_size := by
      rw [chunkLoop_map_dvd _ _ _ _ hF hq, List.length_map, hq]
    unfold notebookRound pyIndexRange
    dsimp only
    rw [if_pos (le_of_eq hlen.symm)]
    exact ⟨_, rfl⟩

/-- A well-formed small configuration: `forward_batch_size` (1) divides
`batch_size` (2). -/
def smallConfig : PPOConfig :=
  { notebookConfig with
    batch_size := 2
    forward_batch_size := 1
    txt_in_len := 1
    txt_out_len := 1 }

/-- Witness for `round_fails_iff`: under the well-formed `smallConfig`
with one query per batch slot, the round completes. -/
theorem round_fails_iff_witness :
    (smallConfig.forward_batch_size ∣ smallConfig.batch_size
        ∧ ([[0], [1]] : List (List Token)).length = smallConfig.batch_size)
      ∧ ∃ out, notebookRound smallConfig (fun _ => 0) (fun _ => []) (fun _ => [5, 9])
          [[0], [1]] = Except.ok out :=
  ⟨⟨⟨2, rfl⟩, rfl⟩,
    (round_fails_iff smallConfig (fun _ => 0) (fun _ => []) (fun _ => [5, 9])
      [[0], [1]]).2 ⟨2, rfl⟩ rfl⟩

/-- `np.clip(x, lo, hi)` for `lo ≤ hi`. -/
def clip (x lo hi : ℚ) : ℚ := max lo (min x hi)

/-- Modelled from the spec: the `AdaptiveKLController` update of
`trl.ppo`, which the notebook uses through `PPOTrainer` but whose source
is not in the notebook.  Spec §4.4:
`coef *= 1 + clip(kl_mean/target - 1, -0.2, 0.2) * (batch_size/horizon)`. -/
def adaptiveKLUpdate (coef klMean target nSteps horizon : ℚ) : ℚ :=
  coef * (1 + clip (klMean / target - 1) (-(2 / 10)) (2 / 10) * (nSteps / horizon))

/-- Modelled from the spec: the per-token reward shaping of the
Statistics Engine (`trl.ppo`, not in the notebook source).  Spec §4.3:
`-coef * kl[t]` at every position, with the externally scored scalar
added only at the final position. -/
def compute_rewards (coef score : ℚ) : List ℚ → List ℚ
  | [] => []
  | [k] => [-coef * k + score]
  | k :: k2 :: ks => (-coef * k) :: compute_rewards coef score (k2 :: ks)

/-- Modelled from the spec: the Generalized Advantage Estimation
backward recurrence of the Statistics Engine (`trl.ppo`, not in the
notebook source).  Spec §4.3: `delta[t] = reward[t] + gamma*value[t+1] -
value[t]` with `value[L] = 0`, `advantage[t] = delta[t] +
gamma*lam*advantage[t+1]` with `advantage[L] = 0`. -/
def gaeAdvantages (gamma lam : ℚ) : List ℚ → List ℚ → List ℚ
  | r :: rs, v :: vs =>
    (r + gamma * vs.headD 0 - v
        + gamma * lam * (gaeAdvantages gamma lam rs vs).headD 0)
      :: gaeAdvantages gamma lam rs vs
  | _, _ => []

/-- C6: one controller update strictly increases the coefficient when
the observed mean KL exceeds the target, strictly decreases it when
below, and leaves it unchanged at the target, for any positive prior
coefficient, positive target, and positive step-size ratio inputs. -/
theorem kl_controller_monotone (coef klMean target nSteps horizon : ℚ)
    (hc : 0 < coef) (ht : 0 < target) (hn : 0 < nSteps) (hh : 0 < horizon) :
    (target < klMean → coef < adaptiveKLUpdate coef klMean target nSteps horizon)
      ∧ (klMean < target → adaptiveKLUpdate coef klMean target nSteps horizon < coef)
      ∧ (klMean = target → adaptiveKLUpdate coef klMean target nSteps horizon = coef) := by
  have hs : 0 < nSteps / horizon := div_pos hn hh
  unfold adaptiveKLUpdate clip
  refine ⟨fun h => ?_, fun h => ?_, fun h => ?_⟩
  · have h1 : 1 < klMean / target := (one_lt_div ht).mpr h
    have hx : 0 < klMean / target - 1 := by linarith
    have hmin : 0 < min (klMean / target - 1) (2 / 10) := lt_min hx (by norm_num)
    have he : 0 < max (-(2 / 10)) (min (klMean / target - 1) (2 / 10)) :=
      lt_of_lt_of_le hmin (le_max_right _ _)
    nlinarith [mul_pos hc (mul_pos he hs)]
  · have h1 : klMean / target < 1 := (div_lt_one ht).mpr h
    have hx : klMean / target - 1 < 0 := by linarith
    have hmin : min (klMean / target - 1) (2 / 10) < 0 :=
      lt_of_le_of_lt (min_le_left _ _) hx
    have he : max (-(2 / 10)) (min (klMean / target - 1) (2 / 10)) < 0 :=
      max_lt (by norm_num) hmin
    nlinarith [mul_pos hc (mul_pos (neg_pos.mpr he) hs)]
  · subst h
    rw [div_self (ne_of_gt ht)]
    norm_num

/-- Witness for `kl_controller_monotone` with the notebook's controller
constants (coef 0.2, target 6, batch 256, horizon 10000) and an observed
mean KL of 12 > 6. -/
theorem kl_controller_monotone_witness :
    ((0 : ℚ) < 2 / 10 ∧ (0 : ℚ) < 6 ∧ (0 : ℚ) < 256 ∧ (0 : ℚ) < 10000 ∧ (6 : ℚ) < 12)
      ∧ (2 / 10 : ℚ) < adaptiveKLUpdate (2 / 10) 12 6 256 10000 :=
  ⟨⟨by norm_num, by norm_num, by norm_num, by norm_num, by norm_num⟩,
    (kl_controller_monotone (2 / 10) 12 6 256 10000 (by norm_num) (by norm_num)
      (by norm_num) (by norm_num)).1 (by norm_num)⟩

/-- C7: the shaped per-token reward is `-coef * kl[t]` at every
non-final position and `-coef * kl[t] + Reward` exactly at the final
position. -/
theorem reward_shaping (coef score : ℚ) :
    ∀ (kl : List ℚ) (t : Nat),
      (t + 1 < kl.length →
        (compute_rewards coef score kl).getD t 0 = -coef * kl.getD t 0)
      ∧ (t + 1 = kl.length →
        (compute_rewards coef score kl).getD t 0 = -coef * kl.getD t 0 + score) := by
  intro kl
  induction kl with
  | nil =>
    intro t
    exact ⟨fun h => absurd h (by simp), fun h => absurd h (by simp)⟩
  | cons k ks ih =>
    intro t
    cases ks with
    | nil =>
      refine ⟨fun h => absurd h (by simp), fun h => ?_⟩
      have ht : t = 0 := by simpa using h
      subst ht
      simp [compute_rewards]
    | cons k2 ks2 =>
      cases t with
      | zero =>
        refine ⟨fun _ => by simp [compute_rewards], fun h => ?_⟩
        exact absurd h (by simp)
      | succ t =>
        refine ⟨fun h => ?_, fun h => ?_⟩
        · have h' : t + 1 < (k2 :: ks2).length := by
            simp only [List.length_cons] at h ⊢
            omega
          simpa [compute_rewards] using (ih t).1 h'
        · have h' : t + 1 = (k2 :: ks2).length := by
            simp only [List.length_cons] at h ⊢
            omega
          simpa [compute_rewards] using (ih t).2 h'

/-- Witness for `reward_shaping`: coef 2, Reward 10, kl = [1, 2, 3], at
the non-final position 0 and the final position 2. -/
theorem reward_shaping_witness :
    (0 + 1 < ([1, 2, 3] : List ℚ).length
      ∧ (compute_rewards 2 10 [1, 2, 3]).getD 0 0 = -2 * ([1, 2, 3] : List ℚ).getD 0 0)
    ∧ (2 + 1 = ([1, 2, 3] : List ℚ).length
      ∧ (compute_rewards 2 10 [1, 2, 3]).getD 2 0
          = -2 * ([1, 2, 3] : List ℚ).getD 2 0 + 10) :=
  ⟨⟨by simp, (reward_shaping 2 10 [1, 2, 3] 0).1 (by simp)⟩,
    ⟨by simp, (reward_shaping 2 10 [1, 2, 3] 2).2 (by simp)⟩⟩

/-- With gamma = lam = 1 the head of the GAE recurrence is the total
remaining reward minus the first value. -/
theorem gae_headD (rs : List ℚ) :
    ∀ vs : List ℚ, rs.length = vs.length →
      (gaeAdvantages 1 1 rs vs).headD 0 = rs.sum - vs.headD 0 := by
  induction rs with
  | nil =>
    intro vs h
    have hvs : vs = [] := List.eq_nil_of_length_eq_zero h.symm
    subst hvs
    simp [gaeAdvantages]
  | cons r rs ih =>
    intro vs h
    cases vs with
    | nil => simp at h
    | cons v vs =>
      have h' : rs.length = vs.length := by simpa using h
      simp only [gaeAdvantages, List.headD_cons]
      rw [ih vs h']
      simp [List.sum_cons]
      ring

/-- C8: with gamma = 1 and lam = 1 the GAE backward recurrence yields,
at every position t, the sum of the rewards from t on minus the value
at t (the plain Monte-Carlo advantage). -/
theorem gae_monte_carlo (rs vs : List ℚ) (t : Nat)
    (hlen : rs.length = vs.length) (ht : t < rs.length) :
    (gaeAdvantages 1 1 rs vs).getD t 0 = (rs.drop t).sum - vs.getD t 0 := by
  induction t generalizing rs vs with
  | zero =>
    cases rs with
    | nil => simp at ht
    | cons r rs2 =>
      cases vs with
      | nil => simp at hlen
      | cons v vs2 =>
        have hh := gae_headD (r :: rs2) (v :: vs2) hlen
        simpa [gaeAdvantages] using hh
  | succ t ih =>
    cases rs with
    | nil => simp at ht
    | cons r rs2 =>
      cases vs with
      | nil => simp at hlen
      | cons v vs2 =>
        have hlen2 : rs2.length = vs2.length := by simpa using hlen
        have ht2 : t < rs2.length := by
          simp only [List.length_cons] at ht
          omega
        simpa [gaeAdvantages] using ih rs2 vs2 hlen2 ht2

/-- Witness for `gae_monte_carlo`: the hand-computable 3-step example
rewards [1, 2, 3], values [10, 20, 30], at position 0. -/
theorem gae_monte_carlo_witness :
    (([1, 2, 3] : List ℚ).length = ([10, 20, 30] : List ℚ).length
        ∧ 0 < ([1, 2, 3] : List ℚ).length)
      ∧ (gaeAdvantages 1 1 [1, 2, 3] [10, 20, 30]).getD 0 0
          = (([1, 2, 3] : List ℚ).drop 0).sum - ([10, 20, 30] : List ℚ).getD 0 0 :=
  ⟨⟨rfl, by simp⟩, gae_monte_carlo [1, 2, 3] [10, 20, 30] 0 rfl (by simp)⟩

/-- Modelled from the spec: the state persisting across training rounds
(§3) — the trainable policy's parameters, the frozen reference policy's
parameters, and the KL coefficient.  `PPOTrainer` (`trl.ppo`) is
imported by the notebook but its source is not in the notebook. -/
structure TrainState (Θ : Type) where
  policy : Θ
  refPolicy : Θ
  klCoef : ℚ

/-- Modelled from the spec (§4.1): sampling reads the trainable policy
and produces rollout data; "Side effect: none beyond policy forward
passes (no parameter mutation)". -/
def samplePhase {Θ D : Type} (gen : Θ → D) (s : TrainState Θ) : TrainState Θ × D :=
  (s, gen s.policy)

/-- Modelled from the spec (§4.2): scoring calls the external scorer on
the rollout data; no training state is touched. -/
def scorePhase {Θ D R : Type} (scorer : D → R) (s : TrainState Θ) (d : D) :
    TrainState Θ × R :=
  (s, scorer d)

/-- Modelled from the spec (§4.3): the Statistics Engine has read-only
access to both policies and the KL coefficient. -/
def statsPhase {Θ D R S : Type} (stats : Θ → Θ → ℚ → D → R → S)
    (s : TrainState Θ) (d : D) (r : R) : TrainState Θ × S :=
  (s, stats s.policy s.refPolicy s.klCoef d r)

/-- Modelled from the spec (§4.5): the PPO Update Engine's gradient
steps rewrite the trainable policy's parameters only. -/
def updatePhase {Θ S : Type} (upd : Θ → S → Θ) (s : TrainState Θ) (st : S) :
    TrainState Θ :=
  { s with policy := upd s.policy st }

/-- Modelled from the spec (§4.4): the Controller rewrites only the KL
coefficient. -/
def ctlPhase {Θ S : Type} (ctl : ℚ → S → ℚ) (s : TrainState Θ) (st : S) :
    TrainState Θ :=
  { s with klCoef := ctl s.klCoef st }

/-- One full training round (§2): sample, score, statistics, PPO update,
controller, in order. -/
def trainRound {Θ D R S : Type} (gen : Θ → D) (scorer : D → R)
    (stats : Θ → Θ → ℚ → D → R → S) (upd : Θ → S → Θ) (ctl : ℚ → S → ℚ)
    (s : TrainState Θ) : TrainState Θ :=
  let p1 := samplePhase gen s
  let p2 := scorePhase scorer p1.1 p1.2
  let p3 := statsPhase stats p2.1 p1.2 p2.2
  ctlPhase ctl (updatePhase upd p3.1 p3.2) p3.2

/-- A whole run: `n` strictly sequential rounds. -/
def trainRun {Θ D R S : Type} (gen : Θ → D) (scorer : D → R)
    (stats : Θ → Θ → ℚ → D → R → S) (upd : Θ → S → Θ) (ctl : ℚ → S → ℚ) :
    Nat → TrainState Θ → TrainState Θ
  | 0, s => s
  | n + 1, s => trainRun gen scorer stats upd ctl n (trainRound gen scorer stats upd ctl s)

/-- C9: across an entire run of any length the reference policy's
parameters are exactly the initial ones; sampling, scoring and the
statistics pass return the state unchanged; the controller leaves both
parameter sets unchanged; the update phase leaves the reference
parameters and the KL coefficient unchanged; and a round's trainable
parameters are exactly the update engine's output on the round's
statistics. -/
theorem params_frame {Θ D R S : Type} (gen : Θ → D) (scorer : D → R)
    (stats : Θ → Θ → ℚ → D → R → S) (upd : Θ → S → Θ) (ctl : ℚ → S → ℚ)
    (n : Nat) (s : TrainState Θ) (d : D) (r : R) (st : S) :
    (trainRun gen scorer stats upd ctl n s).refPolicy = s.refPolicy
      ∧ (samplePhase gen s).1 = s
      ∧ (scorePhase scorer s d).1 = s
      ∧ (statsPhase stats s d r).1 = s
      ∧ (ctlPhase ctl s st).policy = s.policy
      ∧ (ctlPhase ctl s st).refPolicy = s.refPolicy
      ∧ (updatePhase upd s st).refPolicy = s.refPolicy
      ∧ (updatePhase upd s st).klCoef = s.klCoef
      ∧ (trainRound gen scorer stats upd ctl s).policy
          = upd s.policy
              (stats s.policy s.refPolicy s.klCoef (gen s.policy) (scorer (gen s.policy))) := by
  refine ⟨?_, rfl, rfl, rfl, rfl, rfl, rfl, rfl, rfl⟩
  induction n generalizing s with
  | zero => rfl
  | succ n ih => exact (ih (trainRound gen scorer stats upd ctl s)).trans rfl

/-- The corpus preparation of the notebook: keep reviews strictly longer
than 500 characters (`df['review'].str.len() > 500`), truncate each to
its first 1000 characters (`x[:1000]`), and store the first
`txt_in_len` tokens of each truncated review's encoding
(`encode(x)[0, :txt_in_len]`). -/
def corpusTokens (encode : List Char → List Token) (txtInLen : Nat)
    (reviews : List (List Char)) : List (List Token) :=
  ((reviews.filter (fun r => 500 < r.length)).map (fun r => r.take 1000)).map
    (fun r => (encode r).take txtInLen)

/-- `torch.stack` on a list of 1-D token tensors: defined exactly when
all lengths agree, producing the rectangular batch. -/
def stack {α : Type} : List (List α) → Option (List (List α))
  | [] => some []
  | xs :: xss =>
    if xss.all (fun ys => ys.length == xs.length) then some (xs :: xss) else none

/-- C10: if encoding any text longer than 500 characters yields at least
`txtInLen` tokens, then every stored prompt token list has length
exactly `txtInLen`, and stacking any batch drawn from the corpus
succeeds. -/
theorem corpus_prompts_stack (encode : List Char → List Token) (txtInLen : Nat)
    (reviews : List (List Char))
    (henc : ∀ r : List Char, 500 < r.length → txtInLen ≤ (encode r).length) :
    (∀ t ∈ corpusTokens encode txtInLen reviews, t.length = txtInLen)
      ∧ ∀ batch : List (List Token),
        (∀ b ∈ batch, b ∈ corpusTokens encode txtInLen reviews) →
          (stack batch).isSome = true := by
  have hall : ∀ t ∈ corpusTokens encode txtInLen reviews, t.length = txtInLen := by
    intro t htmem
    simp only [corpusTokens, List.mem_map, List.mem_filter, decide_eq_true_eq] at htmem
    obtain ⟨r2, ⟨r, ⟨hrmem, hr500⟩, rfl⟩, rfl⟩ := htmem
    rw [List.length_take]
    have h500 : 500 < (r.take 1000).length := by
      rw [List.length_take]
      exact lt_min (by norm_num) hr500
    exact Nat.min_eq_left (henc _ h500)
  refine ⟨hall, ?_⟩
  intro batch hb
  cases batch with
  | nil => rfl
  | cons xs xss =>
    show (if xss.all (fun ys => ys.length == xs.length) then some (xs :: xss)
        else none).isSome = true
    rw [if_pos]
    · rfl
    · rw [List.all_eq_true]
      intro ys hys
      have h1 : ys.length = txtInLen := hall ys (hb ys (List.mem_cons_of_mem _ hys))
      have h2 : xs.length = txtInLen := hall xs (hb xs (List.mem_cons_self _ _))
      simp [h1, h2]

/-- Witness for `corpus_prompts_stack`: a 7-token constant encoder,
`txt_in_len` = 5, and a single 501-character review. -/
theorem corpus_prompts_stack_witness :
    (∀ r : List Char, 500 < r.length →
        5 ≤ ((fun _ => ([0, 1, 2, 3, 4, 5, 6] : List Token)) r).length)
      ∧ ((∀ t ∈ corpusTokens (fun _ => [0, 1, 2, 3, 4, 5, 6]) 5 [List.replicate 501 'a'],
            t.length = 5)
        ∧ ∀ batch : List (List Token),
          (∀ b ∈ batch,
            b ∈ corpusTokens (fun _ => [0, 1, 2, 3, 4, 5, 6]) 5 [List.replicate 501 'a']) →
            (stack batch).isSome = true) :=
  ⟨fun _ _ => by simp,
    corpus_prompts_stack (fun _ => [0, 1, 2, 3, 4, 5, 6]) 5 [List.replicate 501 'a']
      (fun _ _ => by simp)⟩

